import Mathlib

/-!
Verification of the relay-pool / event-protocol core of NostrWeb-95
(src/App.tsx): a shallow embedding of the publish mutation, the feed and
metadata queries, and the Blossom media upload, together with theorems
settling the specification claims about them.

External primitives (SHA-256, JSON serialization, base64, the nostr-tools
key derivation and signing, the NIP-07 extension) are taken as parameters
of the embedded functions; the control flow and data handling are
translated from the source.
-/

/-- A signed Nostr event (the nostr-tools `Event` type used by App.tsx). -/
structure NEvent where
  id : String
  pubkey : String
  created_at : Nat
  kind : Nat
  tags : List (List String)
  content : String
  sig : String
deriving DecidableEq, Repr

/-- An unsigned event draft (fields of the literal templates in App.tsx). -/
structure EventTemplate where
  kind : Nat
  created_at : Nat
  tags : List (List String)
  content : String
deriving DecidableEq, Repr

/-- nostr-tools `finalizeEvent`: fills in `pubkey`, `id` and `sig` from the
secret key via the crypto primitives `idOf`, `pkOf`, `sigOf`, copying the
template fields verbatim. -/
def finalizeEvent (idOf : EventTemplate → String → String)
    (pkOf : String → String) (sigOf : EventTemplate → String → String)
    (t : EventTemplate) (sk : String) : NEvent :=
  ⟨idOf t sk, pkOf sk, t.created_at, t.kind, t.tags, t.content, sigOf t sk⟩

/-! ## Promise.any over the per-relay publish promises -/

/-- Completion of one per-relay write promise from `pool.publish`: the time
it settles and either an acknowledgment or an error. -/
abbrev RelayOutcome (ε α : Type) := Nat × Except ε α

/-- Fold step tracking the earliest fulfilled promise seen so far; ties in
time keep the earlier promise in list order. -/
def anyStep {ε α : Type} (acc : Option (Nat × α)) (p : RelayOutcome ε α) :
    Option (Nat × α) :=
  match p.2 with
  | .ok a =>
    match acc with
    | none => some (p.1, a)
    | some q => if p.1 < q.1 then some (p.1, a) else some q
  | .error _ => acc

/-- The earliest fulfilled promise (its settle time and value), if any. -/
def firstSuccess {ε α : Type} (l : List (RelayOutcome ε α)) :
    Option (Nat × α) :=
  l.foldl anyStep none

/-- The errors of the rejected promises, in relay order. -/
def rejections {ε α : Type} (l : List (RelayOutcome ε α)) : List ε :=
  l.filterMap fun p =>
    match p.2 with
    | .error e => some e
    | .ok _ => none

/-- `Promise.any`: fulfills with the value of the first promise to fulfill;
rejects with an aggregate of every per-promise error when none fulfills,
which includes the case of an empty promise list. -/
def promiseAny {ε α : Type} (l : List (RelayOutcome ε α)) :
    Except (List ε) α :=
  match firstSuccess l with
  | some q => .ok q.2
  | none => .error (rejections l)

/-! ## Feed query: merge, dedup, sort (notes useQuery) -/

/-- Merge of per-relay streams with first-occurrence dedup by `id`, as
SimplePool delivers each event id once across relays. -/
def dedupByIdAux (seen : List String) : List NEvent → List NEvent
  | [] => []
  | e :: es =>
    if e.id ∈ seen then dedupByIdAux seen es
    else e :: dedupByIdAux (e.id :: seen) es

/-- Dedup by `id`, keeping the first occurrence in arrival order. -/
def dedupById (l : List NEvent) : List NEvent := dedupByIdAux [] l

/-- One insertion step of the stable descending sort: the new element passes
only elements with strictly smaller `created_at`, so equal timestamps keep
their previous relative order. -/
def insertByCreatedAtDesc (a : NEvent) : List NEvent → List NEvent
  | [] => [a]
  | b :: bs =>
    if b.created_at < a.created_at then a :: b :: bs
    else b :: insertByCreatedAtDesc a bs

/-- `events.sort((a, b) => b.created_at - a.created_at)`: JavaScript
`Array.prototype.sort` is stable, so the code performs the unique stable
sort by `created_at` descending, here as stable insertion sort. -/
def sortByCreatedAtDesc (l : List NEvent) : List NEvent :=
  l.foldl (fun acc a => insertByCreatedAtDesc a acc) []

/-- The notes `useQuery` queryFn on given per-relay responses: merge the
streams, dedup by id, sort by `created_at` descending. -/
def feedNotes (responses : List (List NEvent)) : List NEvent :=
  sortByCreatedAtDesc (dedupById responses.flatten)

/-- Lexicographic order on char lists, comparing code points. -/
def charListLt : List Char → List Char → Bool
  | [], [] => false
  | [], _ :: _ => true
  | _ :: _, [] => false
  | c :: cs, d :: ds =>
    if c.toNat < d.toNat then true
    else if d.toNat < c.toNat then false
    else charListLt cs ds

/-- Lexicographic order on strings, via their character lists. -/
def strLtB (s₁ s₂ : String) : Bool := charListLt s₁.data s₂.data

/-- Modelled from the claim wording, for comparison only: insertion step of
a sort by `created_at` descending with ties broken by `id` ascending. -/
def insertBySpecOrder (a : NEvent) : List NEvent → List NEvent
  | [] => [a]
  | b :: bs =>
    if b.created_at < a.created_at ∨
        (b.created_at = a.created_at ∧ strLtB a.id b.id = true) then
      a :: b :: bs
    else b :: insertBySpecOrder a bs

/-- Modelled from the claim wording, for comparison only: full sort by
`created_at` descending, ties broken by `id` lexicographically. -/
def sortBySpecOrder (l : List NEvent) : List NEvent :=
  l.foldl (fun acc a => insertBySpecOrder a acc) []

/-! ## Signing context and the publish mutation -/

/-- Which capability produced a signature. -/
inductive SignerKind where
  | localKey
  | extSigner
deriving DecidableEq, Repr

/-- Session signing state: `userPk`, `userSk`, and the optional
`window.nostr` NIP-07 agent, modelled as a fallible signing function. -/
structure SignCtx where
  userPk : Option String
  userSk : Option String
  ext : Option (EventTemplate → Except String NEvent)

/-- Errors surfaced by the publish mutation. -/
inductive PubError where
  | notLoggedIn
  | signingUnavailable
  | extRejected (msg : String)
  | aggregateFailure (causes : List String)
deriving DecidableEq, Repr

/-- Observable outcome of one `publishMutation.mutationFn` run. -/
structure PublishRun where
  result : Except PubError NEvent
  usedSigner : Option SignerKind
  extConsulted : Bool
  networkWrites : Nat
deriving Repr

/-- `publishMutation.mutationFn`: requires a logged-in pubkey, appends the
attachment URLs to the content, builds the kind-1 template, signs with the
local key when present (otherwise the extension, otherwise fails), then
awaits `Promise.any(pool.publish(relays, event))`. `outcomes` lists the
per-relay write completions, one per relay. -/
def publishMutationFn (idOf : EventTemplate → String → String)
    (pkOf : String → String) (sigOf : EventTemplate → String → String)
    (ctx : SignCtx) (attachments : List String) (content : String)
    (relays : List String) (outcomes : List (RelayOutcome String String))
    (now : Nat) : PublishRun :=
  match ctx.userPk with
  | none => ⟨.error .notLoggedIn, none, false, 0⟩
  | some _ =>
    let finalContent :=
      if attachments.isEmpty then content
      else content ++ "\n\n" ++ String.intercalate "\n" attachments
    let template : EventTemplate := ⟨1, now, [], finalContent⟩
    match ctx.userSk with
    | some sk =>
      let ev := finalizeEvent idOf pkOf sigOf template sk
      match promiseAny outcomes with
      | .ok _ => ⟨.ok ev, some .localKey, false, relays.length⟩
      | .error es =>
        ⟨.error (.aggregateFailure es), some .localKey, false, relays.length⟩
    | none =>
      match ctx.ext with
      | some f =>
        match f template with
        | .ok ev =>
          match promiseAny outcomes with
          | .ok _ => ⟨.ok ev, some .extSigner, true, relays.length⟩
          | .error es =>
            ⟨.error (.aggregateFailure es), some .extSigner, true,
              relays.length⟩
        | .error m => ⟨.error (.extRejected m), none, true, 0⟩
      | none => ⟨.error .signingUnavailable, none, false, 0⟩

/-- `publishMutation.onSuccess`: `setQueryData` prepends the fresh event to
the cached notes list. -/
def onSuccessInsert (newEvent : NEvent) (old : List NEvent) : List NEvent :=
  newEvent :: old

/-! ## Metadata query: react-query cache decision and queryFn fold -/

/-- The react-query cache for the metadata query: entries keyed by the
queryKey components (author pubkeys, relays) with their fetch time (ms). -/
abbrev MetaCache := List ((List String × List String) × Nat)

/-- Exact-match lookup of a serialized queryKey in the cache. -/
def keyLookup (k : List String × List String) : MetaCache → Option Nat
  | [] => none
  | (k2, ts) :: rest => if k = k2 then some ts else keyLookup k rest

/-- The metadata `useQuery` refetch decision: queryKey
`[nostr_metadata, authorPubkeys, relays]`, `enabled` only for a nonempty
author list, `staleTime: 600000` ms. Returns the `authors` field of the
relay query it issues, or `none` when no query is issued. -/
def metadataQueryAuthors (cache : MetaCache) (now : Nat)
    (authors : List String) (relays : List String) : Option (List String) :=
  if authors.isEmpty then none
  else
    match keyLookup (authors, relays) cache with
    | some ts => if now < ts + 600000 then none else some authors
    | none => some authors

/-- One step of the metadata queryFn fold:
`map[e.pubkey] = JSON.parse(e.content)` inside try/catch, so an event whose
content fails to parse leaves the map unchanged. -/
def metaStep {μ : Type} (parse : String → Option μ)
    (m : String → Option μ) (e : NEvent) : String → Option μ :=
  match parse e.content with
  | some j => fun k => if k = e.pubkey then some j else m k
  | none => m

/-- The metadata queryFn fold over the returned kind-0 events, starting
from the empty map. `parse` stands for `JSON.parse`. -/
def buildMetadataMap {μ : Type} (parse : String → Option μ)
    (events : List NEvent) : String → Option μ :=
  events.foldl (metaStep parse) fun _ => none

/-! ## Blossom media upload -/

/-- A file handed to the upload: its name and raw bytes. -/
structure FileModel where
  name : String
  bytes : List Nat
deriving DecidableEq, Repr

/-- The parsed JSON body of a successful upload response. -/
structure UploadJson where
  url : String
deriving DecidableEq, Repr

/-- A fetch response: the HTTP ok flag and the body parsed as JSON, where
`none` models `response.json()` rejecting on a malformed body. -/
structure HttpResponse where
  ok : Bool
  json : Option UploadJson
deriving DecidableEq, Repr

/-- The HTTP request the upload emits. -/
structure HttpRequest where
  method : String
  url : String
  authorization : String
  body : List Nat
deriving DecidableEq, Repr

/-- Caller-visible outcome of one upload attempt. -/
inductive UploadOutcome where
  | notLoggedIn
  | failed (msg : String)
  | succeeded (url : String)
deriving DecidableEq, Repr

/-- Observable outcome of one `uploadToBlossom` run: the outcome, the
attachments list after the run, the emitted request if the fetch was
reached, whether the extension was consulted, which signer produced the
authorization event, and how many failure alerts were shown. -/
structure UploadRun where
  outcome : UploadOutcome
  attachments : List String
  request : Option HttpRequest
  extConsulted : Bool
  usedSigner : Option SignerKind
  alerts : Nat
deriving DecidableEq, Repr

/-- `uploadToBlossom`: returns silently when not logged in; hashes the file
(`hashHex` stands for SHA-256 hex), builds the kind-24242 template binding
the hash and the upload marker, signs (local key first, else extension),
PUTs the raw bytes to BLOSSOM_SERVERS[0] with the base64 serialized event
in the Authorization header, and on an ok response with parsable JSON body
appends the returned url to the attachments. Every thrown failure is caught
once and alerted, leaving the attachments untouched. -/
def uploadToBlossom (idOf : EventTemplate → String → String)
    (pkOf : String → String) (sigOf : EventTemplate → String → String)
    (hashHex : List Nat → String) (serialize : NEvent → String)
    (b64 : String → String) (ctx : SignCtx) (attachments : List String)
    (file : FileModel) (fetchResult : Except String HttpResponse)
    (now : Nat) : UploadRun :=
  match ctx.userPk with
  | none => ⟨.notLoggedIn, attachments, none, false, none, 0⟩
  | some _ =>
    let hash := hashHex file.bytes
    let template : EventTemplate :=
      ⟨24242, now, [["t", "upload"], ["x", hash]], "Upload " ++ file.name⟩
    let signed : Except (String × Bool) (NEvent × SignerKind × Bool) :=
      match ctx.userSk with
      | some sk => .ok (finalizeEvent idOf pkOf sigOf template sk, .localKey, false)
      | none =>
        match ctx.ext with
        | some f =>
          match f template with
          | .ok ev => .ok (ev, .extSigner, true)
          | .error m => .error (m, true)
        | none => .error ("Login to upload media", false)
    match signed with
    | .error (m, c) => ⟨.failed m, attachments, none, c, none, 1⟩
    | .ok (ev, k, c) =>
      let req : HttpRequest :=
        ⟨"PUT", "https://blossom.nostr.wine/upload",
          "Nostr " ++ b64 (serialize ev), file.bytes⟩
      match fetchResult with
      | .error m => ⟨.failed m, attachments, some req, c, some k, 1⟩
      | .ok resp =>
        if resp.ok then
          match resp.json with
          | some d =>
            ⟨.succeeded d.url, attachments ++ [d.url], some req, c, some k, 0⟩
          | none =>
            ⟨.failed "Malformed response body", attachments, some req, c,
              some k, 1⟩
        else ⟨.failed "Upload failed", attachments, some req, c, some k, 1⟩

/-! ## Promise.any lemmas (claim C1) -/

/-- A perturbed completion for one relay write: it must agree with the
original when the original promise settled at or before time `t`, and must
otherwise still settle after `t`. This is the shape of the writes still in
flight after an acknowledgment at time `t`. -/
def laterMayDiffer {ε α : Type} (t : Nat) (p q : RelayOutcome ε α) : Prop :=
  (p.1 ≤ t → q = p) ∧ (t < p.1 → t < q.1)

/-- Invariant relating the fold accumulators over the original and the
perturbed completion lists: equal and settled by `t`, or both after `t`. -/
def accRel {α : Type} (t : Nat) :
    Option (Nat × α) → Option (Nat × α) → Prop
  | none, none => True
  | some q, none => t < q.1
  | none, some q => t < q.1
  | some q₁, some q₂ => (q₁ = q₂ ∧ q₁.1 ≤ t) ∨ (t < q₁.1 ∧ t < q₂.1)

theorem anyStep_keep_or_new {ε α : Type} (acc : Option (Nat × α))
    (r : RelayOutcome ε α) :
    anyStep acc r = acc ∨ ∃ b, anyStep acc r = some (r.1, b) := by
  cases hr : r.2 with
  | error e => exact Or.inl (by simp [anyStep, hr])
  | ok a =>
    cases acc with
    | none => exact Or.inr ⟨a, by simp [anyStep, hr]⟩
    | some q =>
      by_cases hlt : r.1 < q.1
      · exact Or.inr ⟨a, by simp [anyStep, hr, hlt]⟩
      · exact Or.inl (by simp [anyStep, hr, hlt])

theorem anyStep_early_keep {ε α : Type} {t : Nat} (q₀ : Nat × α)
    (r : RelayOutcome ε α) (h0 : q₀.1 ≤ t) (hr : t < r.1) :
    anyStep (some q₀) r = some q₀ := by
  cases hr2 : r.2 with
  | error e => simp [anyStep, hr2]
  | ok a =>
    have hnlt : ¬r.1 < q₀.1 := by omega
    simp [anyStep, hr2, hnlt]

theorem anyStep_accRel {ε α : Type} {t : Nat} {p q : RelayOutcome ε α}
    (hpq : laterMayDiffer t p q) {acc₁ acc₂ : Option (Nat × α)}
    (h : accRel t acc₁ acc₂) :
    accRel t (anyStep acc₁ p) (anyStep acc₂ q) := by
  obtain ⟨hle, hgt⟩ := hpq
  by_cases hp : p.1 ≤ t
  · have hq : q = p := hle hp
    rw [hq]
    cases hp2 : p.2 with
    | error e =>
      simp only [anyStep, hp2]
      exact h
    | ok a =>
      match acc₁, acc₂, h with
      | none, none, _ =>
        simp only [anyStep, hp2]
        exact Or.inl ⟨rfl, hp⟩
      | some q₁, none, h =>
        have h1 : p.1 < q₁.1 := lt_of_le_of_lt hp h
        simp only [anyStep, hp2, if_pos h1]
        exact Or.inl ⟨rfl, hp⟩
      | none, some q₂, h =>
        have h2 : p.1 < q₂.1 := lt_of_le_of_lt hp h
        simp only [anyStep, hp2, if_pos h2]
        exact Or.inl ⟨rfl, hp⟩
      | some q₁, some q₂, h =>
        rcases h with ⟨rfl, hq1⟩ | ⟨h1, h2⟩
        · by_cases hlt : p.1 < q₁.1
          · simp only [anyStep, hp2, if_pos hlt]
            exact Or.inl ⟨rfl, hp⟩
          · simp only [anyStep, hp2, if_neg hlt]
            exact Or.inl ⟨rfl, hq1⟩
        · have l1 : p.1 < q₁.1 := lt_of_le_of_lt hp h1
          have l2 : p.1 < q₂.1 := lt_of_le_of_lt hp h2
          simp only [anyStep, hp2, if_pos l1, if_pos l2]
          exact Or.inl ⟨rfl, hp⟩
  · push_neg at hp
    have hq : t < q.1 := hgt hp
    match acc₁, acc₂, h with
    | none, none, _ =>
      rcases anyStep_keep_or_new none p with k1 | ⟨b1, k1⟩ <;>
        rcases anyStep_keep_or_new none q with k2 | ⟨b2, k2⟩ <;>
        rw [k1, k2]
      · trivial
      · exact hq
      · exact hp
      · exact Or.inr ⟨hp, hq⟩
    | some q₁, none, h =>
      rcases anyStep_keep_or_new (some q₁) p with k1 | ⟨b1, k1⟩ <;>
        rcases anyStep_keep_or_new none q with k2 | ⟨b2, k2⟩ <;>
        rw [k1, k2]
      · exact h
      · exact Or.inr ⟨h, hq⟩
      · exact hp
      · exact Or.inr ⟨hp, hq⟩
    | none, some q₂, h =>
      rcases anyStep_keep_or_new none p with k1 | ⟨b1, k1⟩ <;>
        rcases anyStep_keep_or_new (some q₂) q with k2 | ⟨b2, k2⟩ <;>
        rw [k1, k2]
      · exact h
      · exact hq
      · exact Or.inr ⟨hp, h⟩
      · exact Or.inr ⟨hp, hq⟩
    | some q₁, some q₂, h =>
      rcases h with ⟨rfl, hq1⟩ | ⟨h1, h2⟩
      · rw [anyStep_early_keep q₁ p hq1 hp, anyStep_early_keep q₁ q hq1 hq]
        exact Or.inl ⟨rfl, hq1⟩
      · rcases anyStep_keep_or_new (some q₁) p with k1 | ⟨b1, k1⟩ <;>
          rcases anyStep_keep_or_new (some q₂) q with k2 | ⟨b2, k2⟩ <;>
          rw [k1, k2]
        · exact Or.inr ⟨h1, h2⟩
        · exact Or.inr ⟨h1, hq⟩
        · exact Or.inr ⟨hp, h2⟩
        · exact Or.inr ⟨hp, hq⟩

theorem foldl_anyStep_accRel {ε α : Type} (t : Nat)
    {l₁ l₂ : List (RelayOutcome ε α)}
    (hl : List.Forall₂ (laterMayDiffer t) l₁ l₂) :
    ∀ acc₁ acc₂, accRel t acc₁ acc₂ →
      accRel t (l₁.foldl anyStep acc₁) (l₂.foldl anyStep acc₂) := by
  induction hl with
  | nil =>
    intro acc₁ acc₂ h
    simpa using h
  | cons hpq _ ih =>
    intro acc₁ acc₂ h
    simpa using ih _ _ (anyStep_accRel hpq h)

theorem firstSuccess_stable {ε α : Type} {t : Nat} {a : α}
    {l₁ l₂ : List (RelayOutcome ε α)}
    (hfs : firstSuccess l₁ = some (t, a))
    (hl : List.Forall₂ (laterMayDiffer t) l₁ l₂) :
    firstSuccess l₂ = some (t, a) := by
  have h := foldl_anyStep_accRel t hl none none trivial
  rw [show firstSuccess l₁ = l₁.foldl anyStep none from rfl] at hfs
  rw [hfs] at h
  show l₂.foldl anyStep none = some (t, a)
  cases h2 : l₂.foldl anyStep none with
  | none =>
    rw [h2] at h
    exact absurd h (by simp [accRel])
  | some q₂ =>
    rw [h2] at h
    rcases h with ⟨heq, _⟩ | ⟨hlt, _⟩
    · rw [← heq]
    · exact absurd hlt (lt_irrefl t)

theorem foldl_anyStep_some {ε α : Type} (l : List (RelayOutcome ε α))
    (q : Nat × α) : ∃ r, l.foldl anyStep (some q) = some r := by
  induction l generalizing q with
  | nil => exact ⟨q, rfl⟩
  | cons p ps ih =>
    cases hp : p.2 with
    | error e => simpa [anyStep, hp] using ih q
    | ok a =>
      by_cases hlt : p.1 < q.1
      · simpa [anyStep, hp, hlt] using ih (p.1, a)
      · simpa [anyStep, hp, hlt] using ih q

theorem firstSuccess_none_all_error {ε α : Type} :
    ∀ l : List (RelayOutcome ε α), firstSuccess l = none →
      ∀ p ∈ l, ∃ e, p.2 = Except.error e := by
  intro l
  induction l with
  | nil =>
    intro _ p hp
    cases hp
  | cons p ps ih =>
    intro hfs r hr
    cases hp : p.2 with
    | ok a =>
      exfalso
      have heq : firstSuccess (p :: ps) = ps.foldl anyStep (some (p.1, a)) := by
        simp [firstSuccess, anyStep, hp]
      obtain ⟨q, hq⟩ := foldl_anyStep_some ps (p.1, a)
      rw [heq, hq] at hfs
      exact Option.noConfusion hfs
    | error e =>
      have hfs2 : firstSuccess ps = none := by
        simpa [firstSuccess, anyStep, hp] using hfs
      cases hr with
      | head => exact ⟨e, hp⟩
      | tail _ hmem => exact ih hfs2 r hmem

theorem rejections_length_eq {ε α : Type} (l : List (RelayOutcome ε α))
    (h : ∀ p ∈ l, ∃ e, p.2 = Except.error e) :
    (rejections l).length = l.length := by
  induction l with
  | nil => rfl
  | cons p ps ih =>
    obtain ⟨e, he⟩ := h p (List.mem_cons_self p ps)
    have hr : rejections (p :: ps) = e :: rejections ps := by
      simp [rejections, he]
    rw [hr]
    simpa using ih fun r hmem => h r (List.mem_cons_of_mem p hmem)

/-- C1: the publish await `Promise.any(pool.publish(relays, event))`
resolves successfully with the first per-relay acknowledgment, and its
result is unchanged under any perturbation of the writes still in flight
after that acknowledgment (they are only diagnostics); it rejects only
when every per-relay write failed, and the aggregate error then carries
exactly one cause per relay, in relay order. -/
theorem publish_first_ack_wins_or_aggregates
    (l l₂ m : List (RelayOutcome String String)) (t : Nat) (a : String) :
    (firstSuccess l = some (t, a) → List.Forall₂ (laterMayDiffer t) l l₂ →
      promiseAny l = .ok a ∧ promiseAny l₂ = .ok a)
    ∧ ∀ es, promiseAny m = .error es →
        (∀ p ∈ m, ∃ e, p.2 = Except.error e) ∧ es = rejections m ∧
          es.length = m.length := by
  constructor
  · intro hfs hrel
    have h2 := firstSuccess_stable hfs hrel
    exact ⟨by simp [promiseAny, hfs], by simp [promiseAny, h2]⟩
  · intro es hes
    cases hm : firstSuccess m with
    | some q => simp [promiseAny, hm] at hes
    | none =>
      have hall := firstSuccess_none_all_error m hm
      have hesr : es = rejections m := by
        simp [promiseAny, hm] at hes
        exact hes.symm
      exact ⟨hall, hesr, by rw [hesr]; exact rejections_length_eq m hall⟩

/-- C1 witness: a three-relay publish acked at time 5 whose two later
completions are perturbed without changing the result, and a two-relay
all-fail publish aggregating both causes. -/
theorem publish_first_ack_wins_or_aggregates_witness :
    (promiseAny [(3, Except.error "refused"), (5, Except.ok "ack"),
        (9, (Except.error "late" : Except String String))] = .ok "ack"
      ∧ promiseAny [(3, Except.error "refused"), (5, Except.ok "ack"),
        (12, Except.ok "other")] = .ok "ack")
    ∧ ((∀ p ∈ [((4 : Nat), (Except.error "down" : Except String String)),
          (7, Except.error "timeout")], ∃ e, p.2 = Except.error e)
      ∧ (["down", "timeout"] : List String).length =
          [((4 : Nat), (Except.error "down" : Except String String)),
            (7, Except.error "timeout")].length) := by
  have h := publish_first_ack_wins_or_aggregates
    [(3, Except.error "refused"), (5, Except.ok "ack"), (9, Except.error "late")]
    [(3, Except.error "refused"), (5, Except.ok "ack"), (12, Except.ok "other")]
    [(4, Except.error "down"), (7, Except.error "timeout")] 5 "ack"
  have hrel : List.Forall₂ (laterMayDiffer 5)
      [(3, Except.error "refused"), (5, Except.ok "ack"),
        (9, (Except.error "late" : Except String String))]
      [(3, Except.error "refused"), (5, Except.ok "ack"),
        (12, Except.ok "other")] :=
    List.Forall₂.cons ⟨fun _ => rfl, fun hc => hc⟩
      (List.Forall₂.cons ⟨fun _ => rfl, fun hc => hc⟩
        (List.Forall₂.cons
          ⟨fun hc => absurd hc (by decide), fun _ => by decide⟩
          List.Forall₂.nil))
  have h1 := h.1 rfl hrel
  have h2 := h.2 ["down", "timeout"] rfl
  exact ⟨⟨h1.1, h1.2⟩, ⟨h2.1, h2.2.2⟩⟩

/-! ## Sorting lemmas (claim C2) -/

theorem insertByCreatedAtDesc_perm (a : NEvent) (l : List NEvent) :
    List.Perm (insertByCreatedAtDesc a l) (a :: l) := by
  induction l with
  | nil => simp [insertByCreatedAtDesc]
  | cons b bs ih =>
    by_cases h : b.created_at < a.created_at
    · simp [insertByCreatedAtDesc, h]
    · simp only [insertByCreatedAtDesc, if_neg h]
      exact (ih.cons b).trans (List.Perm.swap a b bs)

theorem sortByCreatedAtDesc_perm (l : List NEvent) :
    List.Perm (sortByCreatedAtDesc l) l := by
  have h : ∀ l acc : List NEvent,
      List.Perm (l.foldl (fun acc a => insertByCreatedAtDesc a acc) acc)
        (acc ++ l) := by
    intro l
    induction l with
    | nil => intro acc; simp
    | cons a as ih =>
      intro acc
      simp only [List.foldl_cons]
      have h1 := ih (insertByCreatedAtDesc a acc)
      have h2 : List.Perm (insertByCreatedAtDesc a acc ++ as) ((a :: acc) ++ as) :=
        (insertByCreatedAtDesc_perm a acc).append_right as
      exact (h1.trans h2).trans List.perm_middle.symm
  simpa [sortByCreatedAtDesc] using h l []

theorem insertByCreatedAtDesc_sorted (a : NEvent) (l : List NEvent)
    (h : l.Pairwise fun x y => y.created_at ≤ x.created_at) :
    (insertByCreatedAtDesc a l).Pairwise
      fun x y => y.created_at ≤ x.created_at := by
  induction l with
  | nil => simp [insertByCreatedAtDesc]
  | cons b bs ih =>
    obtain ⟨hb, hbs⟩ := List.pairwise_cons.mp h
    by_cases hlt : b.created_at < a.created_at
    · simp only [insertByCreatedAtDesc, if_pos hlt]
      refine List.Pairwise.cons ?_ h
      intro y hy
      cases hy with
      | head => exact Nat.le_of_lt hlt
      | tail _ hmem => exact le_trans (hb y hmem) (Nat.le_of_lt hlt)
    · simp only [insertByCreatedAtDesc, if_neg hlt]
      push_neg at hlt
      refine List.Pairwise.cons ?_ (ih hbs)
      intro y hy
      have hy2 : y ∈ a :: bs := (insertByCreatedAtDesc_perm a bs).mem_iff.mp hy
      cases hy2 with
      | head => exact hlt
      | tail _ hmem => exact hb y hmem

theorem sortByCreatedAtDesc_sorted (l : List NEvent) :
    (sortByCreatedAtDesc l).Pairwise
      fun x y => y.created_at ≤ x.created_at := by
  have h : ∀ l acc : List NEvent,
      (acc.Pairwise fun x y => y.created_at ≤ x.created_at) →
      ((l.foldl (fun acc a => insertByCreatedAtDesc a acc) acc).Pairwise
        fun x y => y.created_at ≤ x.created_at) := by
    intro l
    induction l with
    | nil => intro acc hacc; simpa using hacc
    | cons a as ih =>
      intro acc hacc
      simp only [List.foldl_cons]
      exact ih _ (insertByCreatedAtDesc_sorted a acc hacc)
  exact h l [] List.Pairwise.nil

theorem insertByCreatedAtDesc_filter (a : NEvent) (l : List NEvent)
    (h : l.Pairwise fun x y => y.created_at ≤ x.created_at) (t : Nat) :
    (insertByCreatedAtDesc a l).filter (fun e => e.created_at == t) =
      if a.created_at = t
      then l.filter (fun e => e.created_at == t) ++ [a]
      else l.filter (fun e => e.created_at == t) := by
  induction l with
  | nil =>
    by_cases ht : a.created_at = t <;> simp [insertByCreatedAtDesc, ht]
  | cons b bs ih =>
    obtain ⟨hb, hbs⟩ := List.pairwise_cons.mp h
    by_cases hlt : b.created_at < a.created_at
    · simp only [insertByCreatedAtDesc, if_pos hlt]
      by_cases ht : a.created_at = t
      · have hnil : (b :: bs).filter (fun e => e.created_at == t) = [] := by
          rw [List.filter_eq_nil_iff]
          intro e he
          have hle : e.created_at ≤ b.created_at := by
            cases he with
            | head => exact le_refl _
            | tail _ hmem => exact hb e hmem
          have het : e.created_at < t := lt_of_le_of_lt hle (ht ▸ hlt)
          simp [Nat.ne_of_lt het]
        simp [List.filter_cons, ht, hnil]
      · simp [List.filter_cons, ht]
    · simp only [insertByCreatedAtDesc, if_neg hlt]
      by_cases hbt : b.created_at = t <;> by_cases ht : a.created_at = t <;>
        simp [List.filter_cons, hbt, ht, ih hbs]

theorem sortByCreatedAtDesc_stable (l : List NEvent) (t : Nat) :
    (sortByCreatedAtDesc l).filter (fun e => e.created_at == t) =
      l.filter (fun e => e.created_at == t) := by
  have h : ∀ l acc : List NEvent,
      (acc.Pairwise fun x y => y.created_at ≤ x.created_at) →
      (l.foldl (fun acc a => insertByCreatedAtDesc a acc) acc).filter
          (fun e => e.created_at == t) =
        acc.filter (fun e => e.created_at == t) ++
          l.filter (fun e => e.created_at == t) := by
    intro l
    induction l with
    | nil => intro acc hacc; simp
    | cons a as ih =>
      intro acc hacc
      simp only [List.foldl_cons]
      rw [ih _ (insertByCreatedAtDesc_sorted a acc hacc),
        insertByCreatedAtDesc_filter a acc hacc t]
      by_cases ht : a.created_at = t
      · simp [List.filter_cons, ht]
      · simp [List.filter_cons, ht]
  simpa [sortByCreatedAtDesc] using h l [] List.Pairwise.nil

theorem dedupByIdAux_nodup (l : List NEvent) :
    ∀ seen : List String, ((dedupByIdAux seen l).map (·.id)).Nodup ∧
      ∀ s ∈ seen, s ∉ (dedupByIdAux seen l).map (·.id) := by
  induction l with
  | nil => intro seen; simp [dedupByIdAux]
  | cons e es ih =>
    intro seen
    by_cases hm : e.id ∈ seen
    · simp only [dedupByIdAux, if_pos hm]
      exact ih seen
    · simp only [dedupByIdAux, if_neg hm]
      obtain ⟨hnd, hdisj⟩ := ih (e.id :: seen)
      constructor
      · simp only [List.map_cons, List.nodup_cons]
        exact ⟨hdisj e.id (List.mem_cons_self _ _), hnd⟩
      · intro s hs
        have hne : s ≠ e.id := fun heq => hm (heq ▸ hs)
        have h2 := hdisj s (List.mem_cons_of_mem _ hs)
        simp only [List.map_cons, List.mem_cons]
        intro hcon
        cases hcon with
        | inl heq => exact hne heq
        | inr hmem => exact h2 hmem

/-- First event used in the C2 counterexample: id "a", timestamp 100. -/
def evA : NEvent := ⟨"a", "p1", 100, 1, [], "hi", "sigA"⟩

/-- Second event used in the C2 counterexample: id "b", timestamp 100. -/
def evB : NEvent := ⟨"b", "p2", 100, 1, [], "yo", "sigB"⟩

/-- C2 counterexample: two distinct events share `created_at` 100. The code
keeps them in merge order (the JS sort is stable and compares only
`created_at`), while the claimed id tie-break would order them [evA, evB];
swapping which endpoint responds first changes the displayed order, so the
order is not deterministic. -/
theorem feed_tiebreak_counterexample :
    feedNotes [[evB], [evA]] = [evB, evA]
    ∧ sortBySpecOrder (dedupById [[evB], [evA]].flatten) = [evA, evB]
    ∧ feedNotes [[evB], [evA]] ≠ feedNotes [[evA], [evB]] := by
  refine ⟨by decide, by decide, by decide⟩

/-- C2 amended: the displayed feed is the merged per-relay responses
deduplicated by id (first occurrence kept) and stably sorted by
`created_at` descending: it is a permutation of the merged set, sorted
descending, events with equal `created_at` keep their merge-arrival order
(so tie order depends on which endpoint responded first, not on id), and
ids are pairwise distinct. -/
theorem feed_merge_sort_stable (responses : List (List NEvent)) :
    List.Perm (feedNotes responses) (dedupById responses.flatten)
    ∧ ((feedNotes responses).Pairwise
        fun x y => y.created_at ≤ x.created_at)
    ∧ (∀ t, (feedNotes responses).filter (fun e => e.created_at == t) =
        (dedupById responses.flatten).filter (fun e => e.created_at == t))
    ∧ ((feedNotes responses).map (·.id)).Nodup := by
  refine ⟨sortByCreatedAtDesc_perm _, sortByCreatedAtDesc_sorted _,
    fun t => sortByCreatedAtDesc_stable _ t, ?_⟩
  have hperm := (sortByCreatedAtDesc_perm (dedupById responses.flatten)).map
    fun e => e.id
  exact hperm.nodup_iff.mpr (dedupByIdAux_nodup responses.flatten []).1

/-- C8: `onSuccess` prepends the freshly published event to the cached
notes list: the new head is that event and the remainder is exactly the
previous cached list, unchanged. -/
theorem publish_onSuccess_prepends (e : NEvent) (old : List NEvent) :
    (onSuccessInsert e old).head? = some e
    ∧ (onSuccessInsert e old).tail = old
    ∧ (onSuccessInsert e old).length = old.length + 1 :=
  ⟨rfl, rfl, rfl⟩

/-! ## Publish signing-path theorems (claims C3, C5) -/

/-- C3: with no local secret key and no extension, the publish mutation
fails before signing with a signing-unavailability error (Not logged in,
or No signing method available when a pubkey is still cached), and no
relay write is attempted. -/
theorem publish_no_signer_fails_without_network
    (idOf : EventTemplate → String → String) (pkOf : String → String)
    (sigOf : EventTemplate → String → String) (ctx : SignCtx)
    (attachments : List String) (content : String) (relays : List String)
    (outcomes : List (RelayOutcome String String)) (now : Nat)
    (run : PublishRun)
    (hrun : run = publishMutationFn idOf pkOf sigOf ctx attachments content
      relays outcomes now)
    (hsk : ctx.userSk = none) (hext : ctx.ext = none) :
    (run.result = .error .notLoggedIn ∨
      run.result = .error .signingUnavailable)
    ∧ run.networkWrites = 0 ∧ run.extConsulted = false := by
  subst hrun
  cases hpk : ctx.userPk with
  | none => simp [publishMutationFn, hpk]
  | some pk => simp [publishMutationFn, hpk, hsk, hext]

/-- C3 witness: a context with a cached pubkey but no key and no
extension. -/
theorem publish_no_signer_fails_without_network_witness :
    ((publishMutationFn (fun _ _ => "id") (fun _ => "pk") (fun _ _ => "sig")
        ⟨some "pk", none, none⟩ [] "hello" ["wss://r"]
        [(1, Except.error "x")] 0).result = .error .notLoggedIn ∨
      (publishMutationFn (fun _ _ => "id") (fun _ => "pk") (fun _ _ => "sig")
        ⟨some "pk", none, none⟩ [] "hello" ["wss://r"]
        [(1, Except.error "x")] 0).result = .error .signingUnavailable)
    ∧ (publishMutationFn (fun _ _ => "id") (fun _ => "pk") (fun _ _ => "sig")
        ⟨some "pk", none, none⟩ [] "hello" ["wss://r"]
        [(1, Except.error "x")] 0).networkWrites = 0
    ∧ (publishMutationFn (fun _ _ => "id") (fun _ => "pk") (fun _ _ => "sig")
        ⟨some "pk", none, none⟩ [] "hello" ["wss://r"]
        [(1, Except.error "x")] 0).extConsulted = false :=
  publish_no_signer_fails_without_network _ _ _ _ _ _ _ _ _ _ rfl rfl rfl

/-- C5 counterexample: with signing available and zero configured relays,
the publish mutation does not resolve successfully: `Promise.any` of an
empty promise list rejects, so the run fails with an aggregate failure of
zero causes. -/
theorem publish_empty_relays_counterexample :
    (publishMutationFn (fun _ _ => "id") (fun _ => "pk") (fun _ _ => "sig")
        ⟨some "pk", some "sk", none⟩ [] "hello" [] [] 0).result =
      .error (.aggregateFailure []) := rfl

/-- C5 amended: with an empty relay set a feed query yields the empty
result, but a publish with signing available rejects rather than
resolving: the failure is an aggregate carrying zero causes, and zero
relay writes occur. -/
theorem empty_relays_query_empty_publish_rejects
    (idOf : EventTemplate → String → String) (pkOf : String → String)
    (sigOf : EventTemplate → String → String) (ctx : SignCtx)
    (attachments : List String) (content : String) (now : Nat)
    (pk sk : String) (hpk : ctx.userPk = some pk)
    (hsk : ctx.userSk = some sk) :
    feedNotes [] = []
    ∧ (publishMutationFn idOf pkOf sigOf ctx attachments content [] []
        now).result = .error (.aggregateFailure [])
    ∧ (publishMutationFn idOf pkOf sigOf ctx attachments content [] []
        now).networkWrites = 0 := by
  have hany : promiseAny ([] : List (RelayOutcome String String)) =
      .error [] := rfl
  exact ⟨rfl, by simp [publishMutationFn, hpk, hsk, hany],
    by simp [publishMutationFn, hpk, hsk, hany]⟩

/-- C5 amended witness: concrete signing context, empty relay set. -/
theorem empty_relays_query_empty_publish_rejects_witness :
    feedNotes [] = []
    ∧ (publishMutationFn (fun _ _ => "id") (fun _ => "pk")
        (fun _ _ => "sig") ⟨some "pk", some "sk", none⟩ [] "hello" [] []
        0).result = .error (.aggregateFailure [])
    ∧ (publishMutationFn (fun _ _ => "id") (fun _ => "pk")
        (fun _ _ => "sig") ⟨some "pk", some "sk", none⟩ [] "hello" [] []
        0).networkWrites = 0 :=
  empty_relays_query_empty_publish_rejects _ _ _ _ _ _ _ "pk" "sk" rfl rfl

/-! ## Metadata cache theorems (claims C4, C9) -/

/-- C4 counterexample: author A was fetched 60000 ms (1 minute, well under
the 10 minute staleness window) ago under queryKey authors ["A"]; a lookup
for authors ["A", "B"] has a different queryKey, so a relay query is
issued whose authors filter still includes the fresh author A. -/
theorem metadata_requery_fresh_author_counterexample :
    (60000 : Nat) - 0 < 600000
    ∧ metadataQueryAuthors [((["A"], ["wss://r"]), 0)] 60000 ["A", "B"]
        ["wss://r"] = some ["A", "B"]
    ∧ "A" ∈ ["A", "B"] := by decide

/-- C4 amended: the metadata cache is keyed by the entire (author pubkeys,
relays) queryKey with a 10 minute staleTime: a lookup whose exact key was
fetched less than 10 minutes ago issues no relay query at all, while any
query that is issued carries the full requested author set, including
authors fetched recently under other keys. -/
theorem metadata_cache_keyed_by_author_set (cache : MetaCache) (now : Nat)
    (authors relays : List String) (ts : Nat)
    (hts : keyLookup (authors, relays) cache = some ts)
    (hfresh : now < ts + 600000) :
    metadataQueryAuthors cache now authors relays = none
    ∧ ∀ (cache2 : MetaCache) (now2 : Nat) (qa : List String),
        metadataQueryAuthors cache2 now2 authors relays = some qa →
        qa = authors := by
  constructor
  · by_cases he : authors.isEmpty <;>
      simp [metadataQueryAuthors, he, hts, hfresh]
  · intro cache2 now2 qa hq
    by_cases he : authors.isEmpty
    · simp [metadataQueryAuthors, he] at hq
    · unfold metadataQueryAuthors at hq
      rw [if_neg he] at hq
      cases hl2 : keyLookup (authors, relays) cache2 with
      | none =>
        rw [hl2] at hq
        exact (Option.some.inj hq).symm
      | some ts2 =>
        rw [hl2] at hq
        by_cases hf2 : now2 < ts2 + 600000
        · simp [hf2] at hq
        · simp [hf2] at hq
          exact hq.symm

/-- C4 amended witness: the key (["A"], ["wss://r"]) fetched at 0 is fresh
at 60000 ms, so a repeat lookup of the same key issues no query. -/
theorem metadata_cache_keyed_by_author_set_witness :
    metadataQueryAuthors [((["A"], ["wss://r"]), 0)] 60000 ["A"]
        ["wss://r"] = none
    ∧ ∀ (cache2 : MetaCache) (now2 : Nat) (qa : List String),
        metadataQueryAuthors cache2 now2 ["A"] ["wss://r"] = some qa →
        qa = ["A"] :=
  metadata_cache_keyed_by_author_set [((["A"], ["wss://r"]), 0)] 60000
    ["A"] ["wss://r"] 0 (by decide) (by decide)

theorem foldl_metaStep_filter {μ : Type} (parse : String → Option μ) :
    ∀ (events : List NEvent) (m : String → Option μ),
      events.foldl (metaStep parse) m =
        (events.filter fun e => (parse e.content).isSome).foldl
          (metaStep parse) m := by
  intro events
  induction events with
  | nil => intro m; rfl
  | cons e es ih =>
    intro m
    cases hp : parse e.content with
    | some j =>
      simp only [List.filter_cons, hp, Option.isSome_some, if_pos,
        List.foldl_cons]
      exact ih _
    | none =>
      have hstep : metaStep parse m e = m := by simp [metaStep, hp]
      simp only [List.filter_cons, hp, Option.isSome_none, List.foldl_cons,
        hstep]
      simpa using ih m

theorem foldl_metaStep_absent {μ : Type} (parse : String → Option μ)
    (p : String) :
    ∀ (events : List NEvent) (m : String → Option μ),
      (∀ e ∈ events, e.pubkey = p → parse e.content = none) → m p = none →
      events.foldl (metaStep parse) m p = none := by
  intro events
  induction events with
  | nil => intro m _ hm; exact hm
  | cons e es ih =>
    intro m hall hm
    simp only [List.foldl_cons]
    apply ih
    · intro e2 he2 hp2
      exact hall e2 (List.mem_cons_of_mem _ he2) hp2
    · cases hp : parse e.content with
      | none => simpa [metaStep, hp] using hm
      | some j =>
        have hne : e.pubkey ≠ p := by
          intro heq
          have hcon := hall e (List.mem_cons_self _ _) heq
          rw [hp] at hcon
          exact Option.noConfusion hcon
        simp only [metaStep, hp]
        rw [if_neg fun heq => hne heq.symm]
        exact hm

/-- C9: kind-0 events whose content fails to parse contribute nothing: an
author all of whose profile events are malformed has no entry in the
metadata map, the lookup is total (a plain function, never an error), and
dropping the malformed events leaves the whole map unchanged, so entries
of authors with parseable content are unaffected. -/
theorem malformed_profile_yields_absent_entry {μ : Type}
    (parse : String → Option μ) (events : List NEvent) :
    (∀ p, (∀ e ∈ events, e.pubkey = p → parse e.content = none) →
      buildMetadataMap parse events p = none)
    ∧ buildMetadataMap parse events =
        buildMetadataMap parse
          (events.filter fun e => (parse e.content).isSome) := by
  constructor
  · intro p hall
    exact foldl_metaStep_absent parse p events _ hall rfl
  · exact foldl_metaStep_filter parse events _

/-- Concrete stand-in for JSON.parse in the C9 witness: only the content
string "ok" parses. -/
def parseDemo : String → Option Nat := fun s =>
  if s = "ok" then some 1 else none

/-- C9 witness: alice only has a malformed profile event, so the map has
no entry for alice, while bob parses. -/
theorem malformed_profile_yields_absent_entry_witness :
    buildMetadataMap parseDemo
      [⟨"i1", "alice", 5, 0, [], "bad", "s"⟩,
        ⟨"i2", "bob", 6, 0, [], "ok", "s"⟩] "alice" = none :=
  (malformed_profile_yields_absent_entry parseDemo
    [⟨"i1", "alice", 5, 0, [], "bad", "s"⟩,
      ⟨"i2", "bob", 6, 0, [], "ok", "s"⟩]).1 "alice" (by decide)

/-! ## Blossom upload theorems (claims C6, C7, C10) -/

/-- C6: a failed upload (signing, network, HTTP status, or body parse)
reports exactly one failure and leaves the attachments unchanged; being
logged out changes nothing; an attachment is appended only by a
successful upload, and it is exactly the URL from the parsed response
body. -/
theorem upload_failure_is_atomic (idOf : EventTemplate → String → String)
    (pkOf : String → String) (sigOf : EventTemplate → String → String)
    (hashHex : List Nat → String) (serialize : NEvent → String)
    (b64 : String → String) (ctx : SignCtx) (atts : List String)
    (file : FileModel) (fetchResult : Except String HttpResponse)
    (now : Nat) (run : UploadRun)
    (hrun : run = uploadToBlossom idOf pkOf sigOf hashHex serialize b64 ctx
      atts file fetchResult now) :
    (∀ msg, run.outcome = .failed msg →
      run.attachments = atts ∧ run.alerts = 1)
    ∧ (run.outcome = .notLoggedIn → run.attachments = atts)
    ∧ ∀ url, run.outcome = .succeeded url →
        ∃ resp d, fetchResult = .ok resp ∧ resp.ok = true ∧
          resp.json = some d ∧ url = d.url ∧
          run.attachments = atts ++ [d.url] := by
  subst hrun
  cases hpk : ctx.userPk with
  | none => refine ⟨?_, ?_, ?_⟩ <;> simp [uploadToBlossom, hpk]
  | some pk =>
    cases hsk : ctx.userSk with
    | some sk =>
      cases fetchResult with
      | error m => refine ⟨?_, ?_, ?_⟩ <;> simp [uploadToBlossom, hpk, hsk]
      | ok resp =>
        by_cases hok : resp.ok
        · cases hj : resp.json with
          | some d =>
            refine ⟨?_, ?_, ?_⟩
            · intro msg hmsg
              simp [uploadToBlossom, hpk, hsk, hok, hj] at hmsg
            · intro hcon
              simp [uploadToBlossom, hpk, hsk, hok, hj] at hcon
            · intro url hurl
              simp only [uploadToBlossom, hpk, hsk, hok, hj] at hurl ⊢
              refine ⟨resp, d, rfl, hok, hj, ?_, ?_⟩
              · exact (UploadOutcome.succeeded.inj hurl).symm
              · rfl
          | none =>
            refine ⟨?_, ?_, ?_⟩ <;>
              simp [uploadToBlossom, hpk, hsk, hok, hj]
        · refine ⟨?_, ?_, ?_⟩ <;> simp [uploadToBlossom, hpk, hsk, hok]
    | none =>
      cases hext2 : ctx.ext with
      | none =>
        refine ⟨?_, ?_, ?_⟩ <;> simp [uploadToBlossom, hpk, hsk, hext2]
      | some f =>
        cases hf : f ⟨24242, now, [["t", "upload"],
            ["x", hashHex file.bytes]], "Upload " ++ file.name⟩ with
        | error m =>
          refine ⟨?_, ?_, ?_⟩ <;>
            simp [uploadToBlossom, hpk, hsk, hext2, hf]
        | ok ev =>
          cases fetchResult with
          | error m =>
            refine ⟨?_, ?_, ?_⟩ <;>
              simp [uploadToBlossom, hpk, hsk, hext2, hf]
          | ok resp =>
            by_cases hok : resp.ok
            · cases hj : resp.json with
              | some d =>
                refine ⟨?_, ?_, ?_⟩
                · intro msg hmsg
                  simp [uploadToBlossom, hpk, hsk, hext2, hf, hok, hj]
                    at hmsg
                · intro hcon
                  simp [uploadToBlossom, hpk, hsk, hext2, hf, hok, hj]
                    at hcon
                · intro url hurl
                  simp only [uploadToBlossom, hpk, hsk, hext2, hf, hok, hj]
                    at hurl ⊢
                  refine ⟨resp, d, rfl, hok, hj, ?_, ?_⟩
                  · exact (UploadOutcome.succeeded.inj hurl).symm
                  · rfl
              | none =>
                refine ⟨?_, ?_, ?_⟩ <;>
                  simp [uploadToBlossom, hpk, hsk, hext2, hf, hok, hj]
            · refine ⟨?_, ?_, ?_⟩ <;>
                simp [uploadToBlossom, hpk, hsk, hext2, hf, hok]

/-- C7: whenever the upload reaches the network, the emitted request is an
HTTP PUT of the raw file bytes to the Blossom upload endpoint whose
Authorization header is the base64-encoded serialized signed event, whose
tags are exactly the upload marker and the content hash of the payload
(assuming the extension, when used, signs the template it is given); and a
success URL is exactly the one from the parsed JSON response body. -/
theorem upload_request_put_signed_hash
    (idOf : EventTemplate → String → String) (pkOf : String → String)
    (sigOf : EventTemplate → String → String)
    (hashHex : List Nat → String) (serialize : NEvent → String)
    (b64 : String → String) (ctx : SignCtx) (atts : List String)
    (file : FileModel) (fetchResult : Except String HttpResponse)
    (now : Nat) (run : UploadRun)
    (hrun : run = uploadToBlossom idOf pkOf sigOf hashHex serialize b64 ctx
      atts file fetchResult now)
    (hext : ∀ f t ev, ctx.ext = some f → f t = Except.ok ev →
      ev.tags = t.tags) :
    (∀ req, run.request = some req →
      req.method = "PUT" ∧ req.url = "https://blossom.nostr.wine/upload" ∧
      req.body = file.bytes ∧
      ∃ ev, req.authorization = "Nostr " ++ b64 (serialize ev) ∧
        ev.tags = [["t", "upload"], ["x", hashHex file.bytes]])
    ∧ ∀ url, run.outcome = .succeeded url →
        ∃ resp d, fetchResult = .ok resp ∧ resp.ok = true ∧
          resp.json = some d ∧ url = d.url := by
  subst hrun
  cases hpk : ctx.userPk with
  | none => refine ⟨?_, ?_⟩ <;> simp [uploadToBlossom, hpk]
  | some pk =>
    cases hsk : ctx.userSk with
    | some sk =>
      have hreqShape : ∀ req,
          (HttpRequest.mk "PUT" "https://blossom.nostr.wine/upload"
            ("Nostr " ++ b64 (serialize (finalizeEvent idOf pkOf sigOf
              ⟨24242, now, [["t", "upload"], ["x", hashHex file.bytes]],
                "Upload " ++ file.name⟩ sk))) file.bytes) = req →
          req.method = "PUT" ∧
          req.url = "https://blossom.nostr.wine/upload" ∧
          req.body = file.bytes ∧
          ∃ ev, req.authorization = "Nostr " ++ b64 (serialize ev) ∧
            ev.tags = [["t", "upload"], ["x", hashHex file.bytes]] := by
        intro req hreq
        rw [← hreq]
        exact ⟨rfl, rfl, rfl, ⟨_, rfl, rfl⟩⟩
      cases fetchResult with
      | error m =>
        refine ⟨?_, ?_⟩
        · intro req hreq
          simp only [uploadToBlossom, hpk, hsk, Option.some.injEq] at hreq
          exact hreqShape req hreq
        · intro url hurl
          simp [uploadToBlossom, hpk, hsk] at hurl
      | ok resp =>
        by_cases hok : resp.ok
        · cases hj : resp.json with
          | some d =>
            refine ⟨?_, ?_⟩
            · intro req hreq
              simp only [uploadToBlossom, hpk, hsk, hok, hj, if_true,
                Option.some.injEq] at hreq
              exact hreqShape req hreq
            · intro url hurl
              simp only [uploadToBlossom, hpk, hsk, hok, hj, if_true]
                at hurl
              exact ⟨resp, d, rfl, hok, hj,
                (UploadOutcome.succeeded.inj hurl).symm⟩
          | none =>
            refine ⟨?_, ?_⟩
            · intro req hreq
              simp only [uploadToBlossom, hpk, hsk, hok, hj, if_true,
                Option.some.injEq] at hreq
              exact hreqShape req hreq
            · intro url hurl
              simp [uploadToBlossom, hpk, hsk, hok, hj] at hurl
        · refine ⟨?_, ?_⟩
          · intro req hreq
            simp only [uploadToBlossom, hpk, hsk, Bool.not_eq_true] at hreq
            rw [if_neg (by simp [hok])] at hreq
            simp only [Option.some.injEq] at hreq
            exact hreqShape req hreq
          · intro url hurl
            simp [uploadToBlossom, hpk, hsk, hok] at hurl
    | none =>
      cases hext2 : ctx.ext with
      | none => refine ⟨?_, ?_⟩ <;> simp [uploadToBlossom, hpk, hsk, hext2]
      | some f =>
        cases hf : f ⟨24242, now, [["t", "upload"],
            ["x", hashHex file.bytes]], "Upload " ++ file.name⟩ with
        | error m =>
          refine ⟨?_, ?_⟩ <;>
            simp [uploadToBlossom, hpk, hsk, hext2, hf]
        | ok ev =>
          have hevtags : ev.tags =
              [["t", "upload"], ["x", hashHex file.bytes]] :=
            hext f _ ev hext2 hf
          have hreqShape : ∀ req,
              (HttpRequest.mk "PUT" "https://blossom.nostr.wine/upload"
                ("Nostr " ++ b64 (serialize ev)) file.bytes) = req →
              req.method = "PUT" ∧
              req.url = "https://blossom.nostr.wine/upload" ∧
              req.body = file.bytes ∧
              ∃ ev2, req.authorization = "Nostr " ++ b64 (serialize ev2) ∧
                ev2.tags = [["t", "upload"], ["x", hashHex file.bytes]] := by
            intro req hreq
            rw [← hreq]
            exact ⟨rfl, rfl, rfl, ⟨ev, rfl, hevtags⟩⟩
          cases fetchResult with
          | error m =>
            refine ⟨?_, ?_⟩
            · intro req hreq
              simp only [uploadToBlossom, hpk, hsk, hext2, hf,
                Option.some.injEq] at hreq
              exact hreqShape req hreq
            · intro url hurl
              simp [uploadToBlossom, hpk, hsk, hext2, hf] at hurl
          | ok resp =>
            by_cases hok : resp.ok
            · cases hj : resp.json with
              | some d =>
                refine ⟨?_, ?_⟩
                · intro req hreq
                  simp only [uploadToBlossom, hpk, hsk, hext2, hf, hok,
                    hj, if_true, Option.some.injEq] at hreq
                  exact hreqShape req hreq
                · intro url hurl
                  simp only [uploadToBlossom, hpk, hsk, hext2, hf, hok,
                    hj, if_true] at hurl
                  exact ⟨resp, d, rfl, hok, hj,
                    (UploadOutcome.succeeded.inj hurl).symm⟩
              | none =>
                refine ⟨?_, ?_⟩
                · intro req hreq
                  simp only [uploadToBlossom, hpk, hsk, hext2, hf, hok,
                    hj, if_true, Option.some.injEq] at hreq
                  exact hreqShape req hreq
                · intro url hurl
                  simp [uploadToBlossom, hpk, hsk, hext2, hf, hok, hj]
                    at hurl
            · refine ⟨?_, ?_⟩
              · intro req hreq
                simp only [uploadToBlossom, hpk, hsk, hext2, hf,
                  Bool.not_eq_true] at hreq
                rw [if_neg (by simp [hok])] at hreq
                simp only [Option.some.injEq] at hreq
                exact hreqShape req hreq
              · intro url hurl
                simp [uploadToBlossom, hpk, hsk, hext2, hf, hok] at hurl

theorem publishMutationFn_local_path
    (idOf : EventTemplate → String → String) (pkOf : String → String)
    (sigOf : EventTemplate → String → String) (ctx : SignCtx)
    (atts : List String) (content : String) (relays : List String)
    (outcomes : List (RelayOutcome String String)) (now : Nat) (sk : String)
    (hsk : ctx.userSk = some sk) :
    (publishMutationFn idOf pkOf sigOf ctx atts content relays outcomes
      now).extConsulted = false
    ∧ ∀ k, (publishMutationFn idOf pkOf sigOf ctx atts content relays
        outcomes now).usedSigner = some k → k = SignerKind.localKey := by
  cases hpk : ctx.userPk with
  | none => simp [publishMutationFn, hpk]
  | some pk =>
    cases hpo : promiseAny outcomes <;>
      simp [publishMutationFn, hpk, hsk, hpo]

theorem publishMutationFn_ext_only_without_key
    (idOf : EventTemplate → String → String) (pkOf : String → String)
    (sigOf : EventTemplate → String → String) (ctx : SignCtx)
    (atts : List String) (content : String) (relays : List String)
    (outcomes : List (RelayOutcome String String)) (now : Nat) :
    (publishMutationFn idOf pkOf sigOf ctx atts content relays outcomes
      now).extConsulted = true → ctx.userSk = none := by
  cases hsk : ctx.userSk with
  | none => intro _; rfl
  | some sk =>
    intro hcon
    exfalso
    cases hpk : ctx.userPk with
    | none => simp [publishMutationFn, hpk] at hcon
    | some pk =>
      cases hpo : promiseAny outcomes <;>
        simp [publishMutationFn, hpk, hsk, hpo] at hcon

theorem uploadToBlossom_local_path
    (idOf : EventTemplate → String → String) (pkOf : String → String)
    (sigOf : EventTemplate → String → String)
    (hashHex : List Nat → String) (serialize : NEvent → String)
    (b64 : String → String) (ctx : SignCtx) (atts : List String)
    (file : FileModel) (fetchResult : Except String HttpResponse)
    (now : Nat) (sk : String) (hsk : ctx.userSk = some sk) :
    (uploadToBlossom idOf pkOf sigOf hashHex serialize b64 ctx atts file
      fetchResult now).extConsulted = false
    ∧ ∀ k, (uploadToBlossom idOf pkOf sigOf hashHex serialize b64 ctx atts
        file fetchResult now).usedSigner = some k →
        k = SignerKind.localKey := by
  cases hpk : ctx.userPk with
  | none => simp [uploadToBlossom, hpk]
  | some pk =>
    cases fetchResult with
    | error m => simp [uploadToBlossom, hpk, hsk]
    | ok resp =>
      by_cases hok : resp.ok
      · cases hj : resp.json <;> simp [uploadToBlossom, hpk, hsk, hok, hj]
      · simp [uploadToBlossom, hpk, hsk, hok]

theorem uploadToBlossom_ext_only_without_key
    (idOf : EventTemplate → String → String) (pkOf : String → String)
    (sigOf : EventTemplate → String → String)
    (hashHex : List Nat → String) (serialize : NEvent → String)
    (b64 : String → String) (ctx : SignCtx) (atts : List String)
    (file : FileModel) (fetchResult : Except String HttpResponse)
    (now : Nat) :
    (uploadToBlossom idOf pkOf sigOf hashHex serialize b64 ctx atts file
      fetchResult now).extConsulted = true → ctx.userSk = none := by
  cases hsk : ctx.userSk with
  | none => intro _; rfl
  | some sk =>
    intro hcon
    exfalso
    cases hpk : ctx.userPk with
    | none => simp [uploadToBlossom, hpk] at hcon
    | some pk =>
      cases fetchResult with
      | error m => simp [uploadToBlossom, hpk, hsk] at hcon
      | ok resp =>
        by_cases hok : resp.ok
        · cases hj : resp.json <;>
            simp [uploadToBlossom, hpk, hsk, hok, hj] at hcon
        · simp [uploadToBlossom, hpk, hsk, hok] at hcon

/-- C10: when a local secret key is present, both the publish mutation and
the media upload sign with it: the extension is never consulted and any
signer that produced the event is the local key, even when an extension is
available; conversely, either operation consults the extension only when
no local key is present. -/
theorem local_key_signing_preferred
    (idOf : EventTemplate → String → String) (pkOf : String → String)
    (sigOf : EventTemplate → String → String)
    (hashHex : List Nat → String) (serialize : NEvent → String)
    (b64 : String → String) (ctx : SignCtx) (atts : List String)
    (content : String) (relays : List String)
    (outcomes : List (RelayOutcome String String)) (file : FileModel)
    (fetchResult : Except String HttpResponse) (now : Nat) (sk : String)
    (hsk : ctx.userSk = some sk) :
    (publishMutationFn idOf pkOf sigOf ctx atts content relays outcomes
      now).extConsulted = false
    ∧ (∀ k, (publishMutationFn idOf pkOf sigOf ctx atts content relays
        outcomes now).usedSigner = some k → k = SignerKind.localKey)
    ∧ (uploadToBlossom idOf pkOf sigOf hashHex serialize b64 ctx atts file
        fetchResult now).extConsulted = false
    ∧ (∀ k, (uploadToBlossom idOf pkOf sigOf hashHex serialize b64 ctx
        atts file fetchResult now).usedSigner = some k →
        k = SignerKind.localKey)
    ∧ (∀ ctx2 : SignCtx, (publishMutationFn idOf pkOf sigOf ctx2 atts
        content relays outcomes now).extConsulted = true →
        ctx2.userSk = none)
    ∧ (∀ ctx2 : SignCtx, (uploadToBlossom idOf pkOf sigOf hashHex serialize
        b64 ctx2 atts file fetchResult now).extConsulted = true →
        ctx2.userSk = none) := by
  refine ⟨(publishMutationFn_local_path idOf pkOf sigOf ctx atts content
      relays outcomes now sk hsk).1,
    (publishMutationFn_local_path idOf pkOf sigOf ctx atts content relays
      outcomes now sk hsk).2,
    (uploadToBlossom_local_path idOf pkOf sigOf hashHex serialize b64 ctx
      atts file fetchResult now sk hsk).1,
    (uploadToBlossom_local_path idOf pkOf sigOf hashHex serialize b64 ctx
      atts file fetchResult now sk hsk).2, ?_, ?_⟩
  · intro ctx2
    exact publishMutationFn_ext_only_without_key idOf pkOf sigOf ctx2 atts
      content relays outcomes now
  · intro ctx2
    exact uploadToBlossom_ext_only_without_key idOf pkOf sigOf hashHex
      serialize b64 ctx2 atts file fetchResult now

/-- A concrete failing upload run (network error) for the C6 witness. -/
def demoUploadFail : UploadRun :=
  uploadToBlossom (fun _ _ => "id") (fun _ => "pk") (fun _ _ => "sig")
    (fun _ => "hash") (fun e => e.id) (fun s => s)
    ⟨some "pk", some "sk", none⟩ ["u0"] ⟨"pic.png", [1, 2, 3]⟩
    (Except.error "net") 0

/-- A concrete successful upload run for the C6 and C7 witnesses. -/
def demoUploadOk : UploadRun :=
  uploadToBlossom (fun _ _ => "id") (fun _ => "pk") (fun _ _ => "sig")
    (fun _ => "hash") (fun e => e.id) (fun s => s)
    ⟨some "pk", some "sk", none⟩ ["u0"] ⟨"pic.png", [1, 2, 3]⟩
    (Except.ok ⟨true, some ⟨"https://cdn/x"⟩⟩) 0

/-- The request demoUploadOk emits. -/
def demoReq : HttpRequest :=
  ⟨"PUT", "https://blossom.nostr.wine/upload", "Nostr id", [1, 2, 3]⟩

/-- C6 witness: a network failure leaves the attachments untouched with one
alert, and the successful run appends exactly the body URL. -/
theorem upload_failure_is_atomic_witness :
    (demoUploadFail.attachments = ["u0"] ∧ demoUploadFail.alerts = 1)
    ∧ ∃ resp d, (Except.ok ⟨true, some ⟨"https://cdn/x"⟩⟩ :
          Except String HttpResponse) = Except.ok resp ∧
        resp.ok = true ∧ resp.json = some d ∧ "https://cdn/x" = d.url ∧
        demoUploadOk.attachments = ["u0"] ++ [d.url] := by
  constructor
  · exact (upload_failure_is_atomic (fun _ _ => "id") (fun _ => "pk")
      (fun _ _ => "sig") (fun _ => "hash") (fun e => e.id) (fun s => s)
      ⟨some "pk", some "sk", none⟩ ["u0"] ⟨"pic.png", [1, 2, 3]⟩
      (Except.error "net") 0 demoUploadFail rfl).1 "net" rfl
  · exact (upload_failure_is_atomic (fun _ _ => "id") (fun _ => "pk")
      (fun _ _ => "sig") (fun _ => "hash") (fun e => e.id) (fun s => s)
      ⟨some "pk", some "sk", none⟩ ["u0"] ⟨"pic.png", [1, 2, 3]⟩
      (Except.ok ⟨true, some ⟨"https://cdn/x"⟩⟩) 0 demoUploadOk rfl).2.2
      "https://cdn/x" rfl

/-- C7 witness: the emitted request of the successful demo run is a PUT of
the raw bytes with the base64 signed event in the Authorization header,
whose tags bind the payload hash, and the success URL is the body URL. -/
theorem upload_request_put_signed_hash_witness :
    demoReq.method = "PUT"
    ∧ demoReq.url = "https://blossom.nostr.wine/upload"
    ∧ demoReq.body = [1, 2, 3]
    ∧ (∃ ev : NEvent, demoReq.authorization = "Nostr " ++ ev.id ∧
        ev.tags = [["t", "upload"], ["x", "hash"]])
    ∧ ∃ resp d, (Except.ok ⟨true, some ⟨"https://cdn/x"⟩⟩ :
          Except String HttpResponse) = Except.ok resp ∧ resp.ok = true ∧
        resp.json = some d ∧ "https://cdn/x" = d.url := by
  have h := upload_request_put_signed_hash (fun _ _ => "id")
    (fun _ => "pk") (fun _ _ => "sig") (fun _ => "hash") (fun e => e.id)
    (fun s => s) ⟨some "pk", some "sk", none⟩ ["u0"]
    ⟨"pic.png", [1, 2, 3]⟩ (Except.ok ⟨true, some ⟨"https://cdn/x"⟩⟩) 0
    demoUploadOk rfl (fun f t ev hf _ => Option.noConfusion hf)
  obtain ⟨h1, h2, h3, hex⟩ := h.1 demoReq (by decide)
  exact ⟨h1, h2, h3, hex, h.2 "https://cdn/x" rfl⟩

/-- A NIP-07 extension stand-in that is present but never used in the C10
witness. -/
def extDemo : EventTemplate → Except String NEvent :=
  fun _ => Except.error "unused"

/-- C10 witness: with both a local key and an extension configured, the
concrete publish and upload runs never consult the extension and any used
signer is the local key. -/
theorem local_key_signing_preferred_witness :
    (publishMutationFn (fun _ _ => "id") (fun _ => "pk") (fun _ _ => "sig")
      ⟨some "pk", some "sk", some extDemo⟩ ["u0"] "hello" ["wss://r"]
      [(1, Except.ok "ok")] 0).extConsulted = false
    ∧ (∀ k, (publishMutationFn (fun _ _ => "id") (fun _ => "pk")
        (fun _ _ => "sig") ⟨some "pk", some "sk", some extDemo⟩ ["u0"]
        "hello" ["wss://r"] [(1, Except.ok "ok")] 0).usedSigner = some k →
        k = SignerKind.localKey)
    ∧ (uploadToBlossom (fun _ _ => "id") (fun _ => "pk") (fun _ _ => "sig")
        (fun _ => "hash") (fun e => e.id) (fun s => s)
        ⟨some "pk", some "sk", some extDemo⟩ ["u0"] ⟨"pic.png", [1, 2, 3]⟩
        (Except.error "net") 0).extConsulted = false
    ∧ (∀ k, (uploadToBlossom (fun _ _ => "id") (fun _ => "pk")
        (fun _ _ => "sig") (fun _ => "hash") (fun e => e.id) (fun s => s)
        ⟨some "pk", some "sk", some extDemo⟩ ["u0"] ⟨"pic.png", [1, 2, 3]⟩
        (Except.error "net") 0).usedSigner = some k →
        k = SignerKind.localKey)
    ∧ (∀ ctx2 : SignCtx, (publishMutationFn (fun _ _ => "id")
        (fun _ => "pk") (fun _ _ => "sig") ctx2 ["u0"] "hello" ["wss://r"]
        [(1, Except.ok "ok")] 0).extConsulted = true → ctx2.userSk = none)
    ∧ (∀ ctx2 : SignCtx, (uploadToBlossom (fun _ _ => "id") (fun _ => "pk")
        (fun _ _ => "sig") (fun _ => "hash") (fun e => e.id) (fun s => s)
        ctx2 ["u0"] ⟨"pic.png", [1, 2, 3]⟩ (Except.error "net")
        0).extConsulted = true → ctx2.userSk = none) :=
  local_key_signing_preferred (fun _ _ => "id") (fun _ => "pk")
    (fun _ _ => "sig") (fun _ => "hash") (fun e => e.id) (fun s => s)
    ⟨some "pk", some "sk", some extDemo⟩ ["u0"] "hello" ["wss://r"]
    [(1, Except.ok "ok")] ⟨"pic.png", [1, 2, 3]⟩ (Except.error "net") 0
    "sk" rfl
